import Mathlib

/-!
Verification of the `local-memory` retrieval funnel and storage layer.

Shallow embedding conventions:
* `f32`/`f64` values are modelled as real numbers (`ℝ`), with exact
  arithmetic and `Real.sqrt`; `u8` bytes and counts as `ℕ`; UUIDs as `ℕ`.
* The `bitvec` crate's `BitVec<u8, Msb0>` push/`into_vec` behaviour is
  modelled by `bitsVal`/`byteOfBits`/`packBits`: bits are packed
  most-significant-bit first, the trailing bits of a partial final byte
  are zero.
* `simsimd`'s `u8::hamming` and `SpatialSimilarity::cos` return `none` on
  length mismatch, mirroring the crate's `Option` results.
* Rust's stable `sort_by` is modelled by `List.insertionSort` (a stable
  sort with the same observable contract).
* The fjall store (`src/storage/db.rs`) is three keyspaces, modelled as
  association lists; a write batch is modelled as a single simultaneous
  update (fjall batches commit atomically).  The SQLite store
  (`src/storage/sqlite.rs`) runs its two INSERT statements separately, so
  it is modelled as a two-step state transformer that can stop in between.
-/

namespace LocalMemory

/-! ### Bit packing (bitvec `BitVec<u8, Msb0>` semantics) -/

/-- Value of a bit list read most-significant-bit first
(the integer a `Msb0` bit vector denotes). -/
def bitsVal : List Bool → ℕ
  | [] => 0
  | b :: t => 2 ^ t.length * (cond b 1 0) + bitsVal t

/-- One output byte: up to 8 pushed bits, padded at the end with `false`. -/
def byteOfBits (bs : List Bool) : ℕ :=
  bitsVal (bs ++ List.replicate (8 - bs.length) false)

/-- Pack a pushed bit sequence into bytes of 8, MSB-first
(`BitVec::<u8, Msb0>::into_vec`). -/
def packBits : List Bool → List ℕ
  | [] => []
  | b :: rest => byteOfBits ((b :: rest).take 8) :: packBits (rest.drop 7)
termination_by bs => bs.length
decreasing_by simp [List.length_drop]; omega

/-- `encode_bq` from `src/engine/bq.rs`: push `val > 0.0` for each
component, then convert to bytes. -/
noncomputable def encode_bq (vector : List ℝ) : List ℕ :=
  packBits (vector.map fun val => decide (val > 0))

/-! ### Lemmas about bit packing -/

theorem bitsVal_lt (bs : List Bool) : bitsVal bs < 2 ^ bs.length := by
  induction bs with
  | nil => simp [bitsVal]
  | cons b t ih =>
    have h2 : (2:ℕ) ^ (b :: t).length = 2 ^ t.length * 2 := by
      simp [List.length_cons, pow_succ]
    simp only [bitsVal]
    cases b <;> simp only [cond] <;> omega

theorem bitsVal_testBit (bs : List Bool) (i : ℕ) :
    (bitsVal bs).testBit i = ((bs.getD (bs.length - 1 - i) false) && decide (i < bs.length)) := by
  induction bs with
  | nil => simp [bitsVal]
  | cons b t ih =>
    simp only [bitsVal]
    rw [Nat.testBit_mul_pow_two_add _ (bitsVal_lt t)]
    by_cases hi : i < t.length
    · rw [if_pos hi, ih]
      have h1 : t.length - 1 - i + 1 = (b :: t).length - 1 - i := by
        simp [List.length_cons]; omega
      have h2 : (b :: t).getD (t.length - 1 - i + 1) false = t.getD (t.length - 1 - i) false := by
        simp [List.getD_cons_succ]
      rw [← h1, h2]
      simp [hi, Nat.lt_succ_of_lt hi]
    · rw [if_neg hi]
      by_cases heq : i = t.length
      · subst heq
        have h0 : t.length - t.length = 0 := by omega
        have hgd : (b :: t).getD ((b :: t).length - 1 - t.length) false = b := by
          simp [List.length_cons]
        rw [hgd]
        cases b <;> simp [Nat.lt_succ_self]
      · have hgt : t.length < i := by omega
        have hlt : (cond b 1 0 : ℕ) < 2 ^ (i - t.length) := by
          have : 0 < i - t.length := by omega
          have h2 : (2:ℕ)^1 ≤ 2 ^ (i - t.length) := Nat.pow_le_pow_right (by norm_num) this
          cases b
          · simp
          · simp
            omega
        rw [Nat.testBit_lt_two_pow hlt]
        have hdec : decide (i < (b :: t).length) = false := by
          simp [List.length_cons]; omega
        rw [hdec, Bool.and_false]

theorem getD_append_replicate_false (bs : List Bool) (k j : ℕ) :
    (bs ++ List.replicate k false).getD j false = bs.getD j false := by
  induction bs generalizing j with
  | nil =>
    simp only [List.nil_append]
    cases hj : (List.replicate k false).getD j false
    · simp
    · exfalso
      have := List.getD_eq_getElem?_getD (List.replicate k false) j false
      rw [hj] at this
      by_cases hjk : j < k
      · have : (List.replicate k false)[j]? = some false := by
          simp [List.getElem?_replicate, hjk]
        simp [List.getD_eq_getElem?_getD, this] at hj
      · have : (List.replicate k false)[j]? = none := by
          rw [List.getElem?_eq_none]
          simp [List.length_replicate]; omega
        simp [List.getD_eq_getElem?_getD, this] at hj
  | cons b t ih =>
    cases j with
    | zero => simp
    | succ m => simpa using ih m

theorem byteOfBits_testBit (bs : List Bool) (hlen : bs.length ≤ 8) (j : ℕ) (hj : j < 8) :
    (byteOfBits bs).testBit (7 - j) = bs.getD j false := by
  unfold byteOfBits
  have hpadlen : (bs ++ List.replicate (8 - bs.length) false).length = 8 := by
    simp [List.length_append, List.length_replicate]; omega
  rw [bitsVal_testBit, hpadlen]
  have h1 : 8 - 1 - (7 - j) = j := by omega
  rw [h1, getD_append_replicate_false]
  have : (7 - j) < 8 := by omega
  simp [this]

theorem getD_take_eq (l : List Bool) (n i : ℕ) (hi : i < n) :
    (l.take n).getD i false = l.getD i false := by
  simp only [List.getD_eq_getElem?_getD]
  rw [List.getElem?_take_of_lt hi]

theorem getD_drop_eq (l : List Bool) (n i : ℕ) :
    (l.drop n).getD i false = l.getD (n + i) false := by
  simp only [List.getD_eq_getElem?_getD]
  rw [List.getElem?_drop]

theorem packBits_getBit (bs : List Bool) (i : ℕ) :
    ((packBits bs).getD (i / 8) 0).testBit (7 - i % 8) = bs.getD i false := by
  match bs with
  | [] => simp [packBits]
  | b :: rest =>
    rw [packBits]
    by_cases hi : i < 8
    · have hdiv : i / 8 = 0 := Nat.div_eq_of_lt hi
      have hmod : i % 8 = i := Nat.mod_eq_of_lt hi
      rw [hdiv, hmod]
      simp only [List.getD_cons_zero]
      rw [byteOfBits_testBit _ (by simp only [List.length_take]; omega) i hi]
      exact getD_take_eq _ 8 i hi
    · have h8 : 8 ≤ i := by omega
      have hdiv : i / 8 = (i - 8) / 8 + 1 := by omega
      have hmod : i % 8 = (i - 8) % 8 := by omega
      rw [hdiv, hmod]
      simp only [List.getD_cons_succ]
      rw [packBits_getBit (rest.drop 7) (i - 8)]
      rw [getD_drop_eq]
      have h1 : 7 + (i - 8) = i - 1 := by omega
      rw [h1]
      cases i with
      | zero => omega
      | succ m => simp [List.getD_cons_succ]
termination_by bs.length
decreasing_by simp [List.length_drop]; omega

theorem packBits_length (bs : List Bool) : (packBits bs).length = (bs.length + 7) / 8 := by
  match bs with
  | [] => simp [packBits]
  | b :: rest =>
    rw [packBits]
    simp only [List.length_cons]
    rw [packBits_length (rest.drop 7)]
    simp only [List.length_drop]
    omega
termination_by bs.length
decreasing_by simp [List.length_drop]; omega

/-! ### Vector codec: `slice_vector` -/

/-- Sum of squares of a float vector
(`sliced.iter().map(|&x| x * x).sum()`). -/
def sumSq (l : List ℝ) : ℝ := (l.map fun x => x * x).sum

/-- `slice_vector` from `src/engine/matryoshka.rs` (the version used by
search stage 2): errors on `target_dim == 0` and `target_dim > vec.len()`,
otherwise takes the first `target_dim` components and L2-re-normalizes
them unless their norm is zero. -/
noncomputable def slice_vector (vec : List ℝ) (target_dim : ℕ) : Except String (List ℝ) :=
  if target_dim = 0 then
    .error "Target dimension must be greater than zero"
  else if target_dim > vec.length then
    .error "Target dimension is larger than input vector dimension"
  else if Real.sqrt (sumSq (vec.take target_dim)) = 0 then
    .ok (vec.take target_dim)
  else
    .ok ((vec.take target_dim).map fun x => x / Real.sqrt (sumSq (vec.take target_dim)))

/-- `slice_vector` from `src/engine/vectors.rs` (the version used by the
SQLite ingestion pipeline): never fails; returns the whole vector when
`vector.len() <= target_dim`, otherwise the re-normalized
(or, at zero norm, plain) prefix. -/
noncomputable def vectors_slice_vector (vector : List ℝ) (target_dim : ℕ) : List ℝ :=
  if vector.length ≤ target_dim then vector
  else
    let sliced := vector.take target_dim
    let norm := Real.sqrt (sumSq sliced)
    if norm > 0 then sliced.map fun x => x / norm
    else sliced

/-! ### Similarity kernels (simsimd semantics) -/

/-- Number of set bits of a byte (`u8` population count). -/
def bytePopCount (n : ℕ) : ℕ := (List.range 8).countP fun i => n.testBit i

/-- `simsimd` `u8::hamming`: `none` on length mismatch, otherwise the
total popcount of the bytewise XOR. -/
def hammingDist (a b : List ℕ) : Option ℕ :=
  if a.length = b.length then
    some (((a.zip b).map fun p => bytePopCount (p.1 ^^^ p.2)).sum)
  else none

/-- Dot product of two float vectors. -/
def dot (a b : List ℝ) : ℝ := ((a.zip b).map fun p => p.1 * p.2).sum

/-- `simsimd` `SpatialSimilarity::cos`: `none` on length mismatch,
otherwise the cosine distance `1 − a·b/(‖a‖‖b‖)` (exact-arithmetic
idealization of the f32/f64 kernel). -/
noncomputable def cosDist (a b : List ℝ) : Option ℝ :=
  if a.length = b.length then
    some (1 - dot a b / (Real.sqrt (sumSq a) * Real.sqrt (sumSq b)))
  else none

/-! ### Basic codec lemmas -/

theorem sumSq_nonneg (l : List ℝ) : 0 ≤ sumSq l := by
  induction l with
  | nil => simp [sumSq]
  | cons x t ih =>
    simp only [sumSq, List.map_cons, List.sum_cons]
    exact add_nonneg (mul_self_nonneg x) ih

theorem sumSq_map_div (l : List ℝ) (n : ℝ) :
    sumSq (l.map fun x => x / n) = sumSq l / (n * n) := by
  induction l with
  | nil => simp [sumSq]
  | cons x t ih =>
    simp only [sumSq, List.map_cons, List.sum_cons] at *
    rw [ih, div_mul_div_comm, add_div]

theorem slice_vector_ok (v : List ℝ) (m : ℕ) (h1 : 1 ≤ m) (h2 : m ≤ v.length) :
    slice_vector v m =
      (if Real.sqrt (sumSq (v.take m)) = 0 then .ok (v.take m)
       else .ok ((v.take m).map fun x => x / Real.sqrt (sumSq (v.take m)))) := by
  unfold slice_vector
  rw [if_neg (by omega), if_neg (by omega)]

/-! ### Storage: the fjall `Database` (`src/storage/db.rs`)

Three keyspaces (`metadata`, `vectors`, `bit_index`) keyed by the UUID,
modelled as association lists.  A fjall write batch commits atomically,
so `insertMemory`/`deleteMemory` update all three keyspaces in one step.
The only failure modes of the Rust functions are environmental
(I/O, serialization of well-formed values), so they are modelled as
total functions. -/

inductive MemoryTier | episodic | semantic
deriving DecidableEq, Repr

structure Memory where
  id : ℕ
  metadata : String
  vector : List ℝ
  bit_vector : List ℕ
  tier : MemoryTier
  expires_at : Option ℕ

structure MemoryEntry where
  metadata : String
  tier : MemoryTier
  expires_at : Option ℕ
deriving DecidableEq, Repr

structure Database where
  metadata : List (ℕ × MemoryEntry)
  vectors : List (ℕ × List ℝ)
  bit_index : List (ℕ × List ℕ)

def emptyDb : Database := ⟨[], [], []⟩

/-- Lookup in a keyspace: value of the first pair with the given key. -/
def kvLookup (k : ℕ) (l : List (ℕ × α)) : Option α :=
  (l.find? fun p => decide (p.1 = k)).map Prod.snd

/-- Keyspace insert: overwrites any existing entry for the key
(LSM upsert semantics of `fjall`). -/
def kvInsert (k : ℕ) (v : α) (l : List (ℕ × α)) : List (ℕ × α) :=
  (k, v) :: l.filter fun p => decide (p.1 ≠ k)

/-- Keyspace remove. -/
def kvRemove (k : ℕ) (l : List (ℕ × α)) : List (ℕ × α) :=
  l.filter fun p => decide (p.1 ≠ k)

/-- `Database::insert_memory`: one batch inserting the serialized entry,
the vector and the bit vector under the id; the batch commits atomically. -/
def insertMemory (db : Database) (m : Memory) : Database :=
  { metadata := kvInsert m.id ⟨m.metadata, m.tier, m.expires_at⟩ db.metadata
    vectors := kvInsert m.id m.vector db.vectors
    bit_index := kvInsert m.id m.bit_vector db.bit_index }

/-- `Database::delete_memory`: one batch removing the id from all three
keyspaces. -/
def deleteMemory (db : Database) (id : ℕ) : Database :=
  { metadata := kvRemove id db.metadata
    vectors := kvRemove id db.vectors
    bit_index := kvRemove id db.bit_index }

/-- `is_expired` from `src/storage/tier.rs`:
`current_timestamp() >= exp`; `None` never expires. -/
def is_expired (now : ℕ) : Option ℕ → Bool
  | some exp => decide (exp ≤ now)
  | none => false

/-- `Database::get_memory`: requires all three rows to be present and the
entry to be unexpired, otherwise `None`. -/
def getMemory (now : ℕ) (db : Database) (id : ℕ) : Option Memory :=
  match kvLookup id db.metadata, kvLookup id db.vectors, kvLookup id db.bit_index with
  | some e, some v, some b =>
      if is_expired now e.expires_at then none
      else some ⟨id, e.metadata, v, b, e.tier, e.expires_at⟩
  | _, _, _ => none

/-- The store operations of `src/storage/db.rs` that mutate state. -/
inductive StoreOp
  | ins (m : Memory)
  | del (id : ℕ)

def applyOp (db : Database) : StoreOp → Database
  | .ins m => insertMemory db m
  | .del id => deleteMemory db id

def applyOps (db : Database) (ops : List StoreOp) : Database :=
  ops.foldl applyOp db

/-- The four-way referential invariant: the three keyspaces hold rows for
exactly the same ids (in the same order). -/
def tablesAligned (db : Database) : Prop :=
  db.metadata.map Prod.fst = db.vectors.map Prod.fst ∧
  db.metadata.map Prod.fst = db.bit_index.map Prod.fst

/-! ### Storage: the `SqliteDatabase` (`src/storage/sqlite.rs`)

`insert_document` executes two separate `self.conn.execute` statements
with no enclosing transaction: first `INSERT INTO documents`, then
`INSERT INTO vec_documents`.  The first fails exactly on a duplicate
primary key; the second fails on a duplicate key or when the embedding
does not match the `float[768]` column declared by `vec0`.  The model
returns the state reached when the function returns, plus a success flag
(`false` = the Rust function returned `Err`). -/

structure DocRow where
  title : String
  content : String
  metadata : String
  created_at : ℕ
deriving DecidableEq, Repr

structure SqliteDb where
  documents : List (String × DocRow)
  vec_documents : List (String × List ℝ)

def sqliteEmpty : SqliteDb := ⟨[], []⟩

def strLookup (k : String) (l : List (String × α)) : Option α :=
  (l.find? fun p => decide (p.1 = k)).map Prod.snd

/-- `SqliteDatabase::insert_document` (two statements, no transaction). -/
def sqliteInsertDocument (db : SqliteDb) (id : String) (doc : DocRow) (vector : List ℝ) :
    SqliteDb × Bool :=
  if (strLookup id db.documents).isSome then
    (db, false)
  else
    let db1 : SqliteDb := { db with documents := db.documents ++ [(id, doc)] }
    if (strLookup id db1.vec_documents).isSome ∨ vector.length ≠ 768 then
      (db1, false)
    else
      ({ db1 with vec_documents := db1.vec_documents ++ [(id, vector)] }, true)

/-! ### Stage 1: Hamming scan (`src/engine/search_stage1.rs`)

`hamming_scan` iterates the `bit_index` keyspace, keeps every row whose
bit vector length matches the query (simsimd returns `Some` exactly
then), sorts ascending by distance with a stable sort, and truncates to
`k`. -/

/-- Order used by stage 1's `sort_by`: ascending distance. -/
def distLE (a b : ℕ × ℕ) : Prop := a.2 ≤ b.2

instance : DecidableRel distLE := fun a b => inferInstanceAs (Decidable (a.2 ≤ b.2))
instance : IsTotal (ℕ × ℕ) distLE := ⟨fun a b => Nat.le_total a.2 b.2⟩
instance : IsTrans (ℕ × ℕ) distLE := ⟨fun _ _ _ => Nat.le_trans⟩

def hamming_scan (db : Database) (query_bits : List ℕ) (k : ℕ) : List (ℕ × ℕ) :=
  let results := db.bit_index.filterMap fun p =>
    (hammingDist query_bits p.2).map fun d => (p.1, d)
  (results.insertionSort distLE).take k

/-! ### Stage 2: Matryoshka refinement (`src/engine/search_stage2.rs`)

The target dimension is the constant `256` in the source.  For each
candidate id found in the store (expired or missing ids are skipped by
`get_memory`), the stored vector is sliced and the cosine distance to the
sliced query is computed; `similarity = 1 − distance` is recorded, the
list is sorted descending by similarity and truncated to `top_k`. -/

/-- Order used by stage 2's `sort_by`: descending similarity. -/
def simGE (a b : ℕ × ℝ) : Prop := b.2 ≤ a.2

noncomputable instance : DecidableRel simGE := fun a b => inferInstanceAs (Decidable (b.2 ≤ a.2))
instance : IsTotal (ℕ × ℝ) simGE := ⟨fun a b => le_total b.2 a.2⟩
instance : IsTrans (ℕ × ℝ) simGE := ⟨fun _ _ _ h1 h2 => le_trans h2 h1⟩

/-- The candidate loop of `matryoshka_refinement`, accumulating
`(id, similarity)` in candidate order. -/
noncomputable def stage2Scores (now : ℕ) (db : Database) (sliced_query : List ℝ) :
    List ℕ → Except String (List (ℕ × ℝ))
  | [] => .ok []
  | id :: rest =>
    match getMemory now db id with
    | none => stage2Scores now db sliced_query rest
    | some memory =>
      match slice_vector memory.vector 256 with
      | .error e => .error e
      | .ok sliced_candidate =>
        match cosDist sliced_query sliced_candidate with
        | none => .error "Failed to calculate cosine distance"
        | some distance =>
          match stage2Scores now db sliced_query rest with
          | .error e => .error e
          | .ok tail => .ok ((id, 1 - distance) :: tail)

noncomputable def matryoshka_refinement (now : ℕ) (db : Database) (query_vector : List ℝ)
    (candidate_ids : List ℕ) (top_k : ℕ) : Except String (List (ℕ × ℝ)) :=
  match slice_vector query_vector 256 with
  | .error e => .error e
  | .ok sliced_query =>
    match stage2Scores now db sliced_query candidate_ids with
    | .error e => .error e
    | .ok scores => .ok ((scores.insertionSort simGE).take top_k)

/-! ### Stage 3: exact rerank (`src/engine/search_stage3.rs`) -/

/-- Order used by stage 3's `sort_by`: descending similarity. -/
def simGE3 (a b : ℕ × ℝ × String) : Prop := b.2.1 ≤ a.2.1

noncomputable instance : DecidableRel simGE3 := fun a b => inferInstanceAs (Decidable (b.2.1 ≤ a.2.1))
instance : IsTotal (ℕ × ℝ × String) simGE3 := ⟨fun a b => le_total b.2.1 a.2.1⟩
instance : IsTrans (ℕ × ℝ × String) simGE3 := ⟨fun _ _ _ h1 h2 => le_trans h2 h1⟩

/-- The candidate loop of `full_rerank`, accumulating
`(id, similarity, metadata)` in candidate order. -/
noncomputable def stage3Scores (now : ℕ) (db : Database) (query_vector : List ℝ) :
    List ℕ → Except String (List (ℕ × ℝ × String))
  | [] => .ok []
  | id :: rest =>
    match getMemory now db id with
    | none => stage3Scores now db query_vector rest
    | some memory =>
      match cosDist query_vector memory.vector with
      | none => .error "Failed to calculate cosine distance"
      | some distance =>
        match stage3Scores now db query_vector rest with
        | .error e => .error e
        | .ok tail => .ok ((id, 1 - distance, memory.metadata) :: tail)

noncomputable def full_rerank (now : ℕ) (db : Database) (query_vector : List ℝ)
    (candidate_ids : List ℕ) (top_k : ℕ) : Except String (List (ℕ × ℝ × String)) :=
  match stage3Scores now db query_vector candidate_ids with
  | .error e => .error e
  | .ok results => .ok ((results.insertionSort simGE3).take top_k)

/-! ### Funnel orchestrator (`src/engine/funnel.rs`) -/

/-- The `search_stages` configuration consumed by `SearchFunnel::search`. -/
structure Config where
  stage1_k : ℕ
  stage2_k : ℕ

structure FunnelResult where
  id : ℕ
  score : ℝ
  metadata : String

/-- `SearchFunnel::search`: stage 1 on `encode_bq` of the query,
short-circuit on empty, stage 2 on the stage-1 ids, short-circuit on
empty, stage 3 on the stage-2 ids, package `FunnelResult`s. -/
noncomputable def search (now : ℕ) (db : Database) (config : Config) (query_vector : List ℝ)
    (top_k : ℕ) : Except String (List FunnelResult) :=
  if (hamming_scan db (encode_bq query_vector) config.stage1_k).isEmpty then .ok []
  else
    match matryoshka_refinement now db query_vector
        ((hamming_scan db (encode_bq query_vector) config.stage1_k).map Prod.fst)
        config.stage2_k with
    | .error e => .error e
    | .ok stage2_results =>
      if stage2_results.isEmpty then .ok []
      else
        match full_rerank now db query_vector (stage2_results.map Prod.fst) top_k with
        | .error e => .error e
        | .ok stage3_results =>
          .ok (stage3_results.map fun t => ⟨t.1, t.2.1, t.2.2⟩)

/-! ### Generic helpers: stable sort followed by truncation -/

theorem sortTake_pairwise (r : α → α → Prop) [DecidableRel r] [IsTotal α r] [IsTrans α r]
    (l : List α) (k : ℕ) : ((l.insertionSort r).take k).Pairwise r :=
  List.Pairwise.sublist (List.take_sublist k _) (List.sorted_insertionSort r l)

theorem sortTake_length (r : α → α → Prop) [DecidableRel r] (l : List α) (k : ℕ) :
    ((l.insertionSort r).take k).length = min k l.length := by
  rw [List.length_take, List.length_insertionSort]

theorem sortTake_min (r : α → α → Prop) [DecidableRel r] [IsTotal α r] [IsTrans α r]
    (l : List α) (k : ℕ) (p : α) (hp : p ∈ l) (hnot : p ∉ (l.insertionSort r).take k) :
    ∀ o ∈ (l.insertionSort r).take k, r o p := by
  have hmem : p ∈ l.insertionSort r := (List.perm_insertionSort r l).symm.subset hp
  have hsort : (l.insertionSort r).Pairwise r := List.sorted_insertionSort r l
  have hsplit : (l.insertionSort r).take k ++ (l.insertionSort r).drop k = l.insertionSort r :=
    List.take_append_drop k _
  rw [← hsplit] at hsort hmem
  rcases List.mem_append.mp hmem with h | h
  · exact absurd h hnot
  · intro o ho
    exact (List.pairwise_append.mp hsort).2.2 o ho p h

theorem sortTake_mem (r : α → α → Prop) [DecidableRel r] (l : List α) (k : ℕ)
    (p : α) (hp : p ∈ (l.insertionSort r).take k) : p ∈ l :=
  (List.perm_insertionSort r l).subset (List.mem_of_mem_take hp)

theorem filterMap_all_some {f : α → Option β} {g : α → β} (l : List α)
    (h : ∀ a ∈ l, f a = some (g a)) : l.filterMap f = l.map g := by
  induction l with
  | nil => simp
  | cons x t ih =>
    rw [List.filterMap_cons, h x (List.mem_cons_self x t), List.map_cons,
      ih fun a ha => h a (List.mem_cons_of_mem x ha)]

/-! ### Claim theorems: codec -/

/-- C2: `encode_bq(v)` produces `⌈|v|/8⌉` bytes; bit `(7 − i mod 8)` of
byte `⌊i/8⌋` (MSB-first) is 1 iff `v[i] > 0` (strictly); trailing bits
beyond component `|v| − 1` are 0; and the two literal examples
`encode_bq [1,-1,0.5,0,-0.5,2,-2,0.1] = [0xA5]` and
`encode_bq [1,-1,1] = [0xA0]` hold. -/
theorem encode_bq_bits :
    (∀ v : List ℝ, (encode_bq v).length = (v.length + 7) / 8) ∧
    (∀ (v : List ℝ) (i : ℕ), i < v.length →
      ((encode_bq v).getD (i / 8) 0).testBit (7 - i % 8) = decide (v.getD i 0 > 0)) ∧
    (∀ (v : List ℝ) (i : ℕ), v.length ≤ i →
      ((encode_bq v).getD (i / 8) 0).testBit (7 - i % 8) = false) ∧
    encode_bq [1, -1, 0.5, 0, -0.5, 2, -2, 0.1] = [165] ∧
    encode_bq [1, -1, 1] = [160] := by
  refine ⟨?_, ?_, ?_, ?_, ?_⟩
  · intro v
    unfold encode_bq
    rw [packBits_length, List.length_map]
  · intro v i hi
    unfold encode_bq
    rw [packBits_getBit]
    have hv : v[i]? = some v[i] := List.getElem?_eq_getElem hi
    have hmap : (v.map fun val => decide (val > 0))[i]? = some (decide (v[i] > 0)) := by
      rw [List.getElem?_map, hv]
      rfl
    simp only [List.getD_eq_getElem?_getD, hmap, hv, Option.getD_some]
  · intro v i hi
    unfold encode_bq
    rw [packBits_getBit]
    have hmap : (v.map fun val => decide (val > 0))[i]? = none := by
      rw [List.getElem?_eq_none]
      simpa using hi
    simp only [List.getD_eq_getElem?_getD, hmap, Option.getD_none]
  · have hb : ([1, -1, 0.5, 0, -0.5, 2, -2, 0.1] : List ℝ).map (fun val => decide (val > 0))
        = [true, false, true, false, false, true, false, true] := by
      norm_num [decide_eq_true_eq, decide_eq_false_iff_not]
    unfold encode_bq
    rw [hb]
    norm_num [packBits, byteOfBits, bitsVal]
  · have hb : ([1, -1, 1] : List ℝ).map (fun val => decide (val > 0))
        = [true, false, true] := by
      norm_num [decide_eq_true_eq, decide_eq_false_iff_not]
    unfold encode_bq
    rw [hb]
    norm_num [packBits, byteOfBits, bitsVal]

/-- Witness for C2 at a concrete index of a concrete vector. -/
theorem encode_bq_bits_witness :
    ((encode_bq [1, -1, 1]).getD 0 0).testBit 7 = decide (([1, -1, 1] : List ℝ).getD 0 0 > 0) := by
  have h := encode_bq_bits.2.1 [1, -1, 1] 0 (by norm_num)
  simpa using h

/-- C7 as stated is false for the `slice_vector` of `src/engine/vectors.rs`
(cited by the claim): at `v = [1, 2]`, `m = 3 > |v|` it does not fail, it
returns the input unchanged. -/
theorem vectors_slice_vector_no_error :
    vectors_slice_vector [1, 2] 3 = [1, 2] := by
  unfold vectors_slice_vector
  norm_num

/-- C7 (amended): the `slice_vector` of `src/engine/matryoshka.rs` (used
by search stage 2) fails exactly when `m = 0` or `m > |v|`; the
`slice_vector` of `src/engine/vectors.rs` (used by the SQLite ingestion
pipeline) never fails: for `m ≥ |v|` it returns the input unchanged, and
for `m = 0 < |v|` it returns the empty vector. -/
theorem slice_vector_err_amended :
    (∀ (v : List ℝ) (m : ℕ), (∃ e, slice_vector v m = .error e) ↔ (m = 0 ∨ m > v.length)) ∧
    (∀ (v : List ℝ) (m : ℕ), v.length ≤ m → vectors_slice_vector v m = v) ∧
    (∀ v : List ℝ, 0 < v.length → vectors_slice_vector v 0 = []) := by
  refine ⟨?_, ?_, ?_⟩
  · intro v m
    constructor
    · rintro ⟨e, he⟩
      by_contra hcon
      push_neg at hcon
      rw [slice_vector_ok v m (by omega) (by omega)] at he
      split at he <;> exact Except.noConfusion he
    · rintro (h | h) <;> unfold slice_vector
      · rw [if_pos h]
        exact ⟨_, rfl⟩
      · rw [if_neg (by omega), if_pos h]
        exact ⟨_, rfl⟩
  · intro v m h
    unfold vectors_slice_vector
    rw [if_pos h]
  · intro v hv
    unfold vectors_slice_vector
    rw [if_neg (by omega)]
    simp [sumSq, Real.sqrt_zero]

/-- Witness for C7: the error cases and success case at concrete inputs. -/
theorem slice_vector_err_amended_witness :
    (∃ e, slice_vector [(1 : ℝ)] 0 = .error e) ∧
    (∃ e, slice_vector [(1 : ℝ)] 2 = .error e) ∧
    vectors_slice_vector [(1 : ℝ)] 3 = [1] :=
  ⟨(slice_vector_err_amended.1 [1] 0).mpr (Or.inl rfl),
   (slice_vector_err_amended.1 [1] 2).mpr (Or.inr (by norm_num)),
   slice_vector_err_amended.2.1 [1] 3 (by norm_num)⟩

/-- C8: for `1 ≤ m ≤ |v|`, `slice_vector v m` succeeds with a vector of
length exactly `m`; if the L2 norm of the prefix is 0 the components are
returned unchanged, otherwise the result's L2 norm lies within `1e-6`
of 1 (in the exact-arithmetic model it is exactly 1). -/
theorem slice_vector_norm (v : List ℝ) (m : ℕ) (h1 : 1 ≤ m) (h2 : m ≤ v.length) :
    ∃ r, slice_vector v m = .ok r ∧ r.length = m ∧
      (Real.sqrt (sumSq (v.take m)) = 0 → r = v.take m) ∧
      (Real.sqrt (sumSq (v.take m)) ≠ 0 →
        |Real.sqrt (sumSq r) - 1| ≤ 1 / 1000000) := by
  rw [slice_vector_ok v m h1 h2]
  by_cases hn : Real.sqrt (sumSq (v.take m)) = 0
  · refine ⟨v.take m, by rw [if_pos hn], ?_, fun _ => rfl, fun h => absurd hn h⟩
    rw [List.length_take]
    omega
  · refine ⟨(v.take m).map fun x => x / Real.sqrt (sumSq (v.take m)),
      by rw [if_neg hn], ?_, fun h => absurd h hn, fun _ => ?_⟩
    · rw [List.length_map, List.length_take]
      omega
    · have hS : Real.sqrt (sumSq (v.take m)) * Real.sqrt (sumSq (v.take m))
          = sumSq (v.take m) := Real.mul_self_sqrt (sumSq_nonneg _)
      have hS0 : sumSq (v.take m) ≠ 0 := by
        intro h0
        rw [h0, Real.sqrt_zero] at hn
        exact hn rfl
      rw [sumSq_map_div, hS, div_self hS0, Real.sqrt_one]
      norm_num

/-- Witness for C8 at `v = [1, 1, 1, 1]`, `m = 2`. -/
theorem slice_vector_norm_witness :
    ∃ r, slice_vector [(1 : ℝ), 1, 1, 1] 2 = .ok r ∧ r.length = 2 ∧
      (Real.sqrt (sumSq (([(1 : ℝ), 1, 1, 1]).take 2)) = 0 → r = ([(1 : ℝ), 1, 1, 1]).take 2) ∧
      (Real.sqrt (sumSq (([(1 : ℝ), 1, 1, 1]).take 2)) ≠ 0 →
        |Real.sqrt (sumSq r) - 1| ≤ 1 / 1000000) :=
  slice_vector_norm [1, 1, 1, 1] 2 (by norm_num) (by norm_num)

/-- C3: with a dimension-consistent store (every stored bit vector has
the query's byte length, the data-model invariant), `hamming_scan`
returns exactly `min(k, N)` entries, sorted by ascending Hamming
distance, and Hamming-minimal: every stored row whose id is not returned
is at least as far from the query as every returned entry. -/
theorem hamming_scan_topk (db : Database) (q : List ℕ) (k : ℕ)
    (hlen : ∀ p ∈ db.bit_index, (p.2 : List ℕ).length = q.length) :
    (hamming_scan db q k).length = min k db.bit_index.length ∧
    (hamming_scan db q k).Pairwise distLE ∧
    (∀ p ∈ db.bit_index, (∀ o ∈ hamming_scan db q k, o.1 ≠ p.1) →
      ∀ o ∈ hamming_scan db q k, ∀ d, hammingDist q p.2 = some d → o.2 ≤ d) := by
  have hres : db.bit_index.filterMap
        (fun p => (hammingDist q p.2).map fun d => (p.1, d))
      = db.bit_index.map fun p =>
          (p.1, ((q.zip p.2).map fun r => bytePopCount (r.1 ^^^ r.2)).sum) := by
    apply filterMap_all_some
    intro p hp
    rw [hammingDist, if_pos (hlen p hp).symm]
    rfl
  refine ⟨?_, ?_, ?_⟩
  · rw [hamming_scan, hres, sortTake_length, List.length_map]
  · rw [hamming_scan]
    exact sortTake_pairwise distLE _ k
  · intro p hp hnot o ho d hd
    have hd' : d = ((q.zip p.2).map fun r => bytePopCount (r.1 ^^^ r.2)).sum := by
      rw [hammingDist, if_pos (hlen p hp).symm] at hd
      exact (Option.some.injEq _ _).mp hd |>.symm
    have hmem : (p.1, d) ∈ db.bit_index.filterMap
        (fun p => (hammingDist q p.2).map fun d => (p.1, d)) := by
      rw [hres, hd']
      exact List.mem_map.mpr ⟨p, hp, rfl⟩
    have hnotin : (p.1, d) ∉
        ((db.bit_index.filterMap fun p =>
          (hammingDist q p.2).map fun d => (p.1, d)).insertionSort distLE).take k := by
      intro hin
      exact hnot (p.1, d) hin rfl
    have := sortTake_min distLE _ k (p.1, d) hmem hnotin o ho
    exact this

/-- Witness for C3 on a concrete two-row store. -/
theorem hamming_scan_topk_witness :
    (hamming_scan ⟨[], [], [(5, [3]), (9, [0])]⟩ [0] 1).length
        = min 1 ([(5, [3]), (9, [0])] : List (ℕ × List ℕ)).length ∧
    (hamming_scan ⟨[], [], [(5, [3]), (9, [0])]⟩ [0] 1).Pairwise distLE := by
  have h := hamming_scan_topk ⟨[], [], [(5, [3]), (9, [0])]⟩ [0] 1 (by decide)
  exact ⟨h.1, h.2.1⟩

/-! ### Storage lemmas -/

theorem map_fst_filter_ne (l : List (ℕ × α)) (k : ℕ) :
    ((l.filter fun p => decide (p.1 ≠ k)).map Prod.fst)
      = (l.map Prod.fst).filter fun x => decide (x ≠ k) := by
  induction l with
  | nil => simp
  | cons p t ih =>
    rw [List.filter_cons, List.map_cons, List.filter_cons]
    by_cases hp : p.1 = k
    · rw [if_neg (by simp [hp]), if_neg (by simp [hp])]
      exact ih
    · rw [if_pos (by simp [hp]), if_pos (by simp [hp]), List.map_cons, ih]

theorem map_fst_kvInsert (k : ℕ) (v : α) (l : List (ℕ × α)) :
    (kvInsert k v l).map Prod.fst = k :: ((l.map Prod.fst).filter fun x => decide (x ≠ k)) := by
  rw [kvInsert, List.map_cons, map_fst_filter_ne]

theorem map_fst_kvRemove (k : ℕ) (l : List (ℕ × α)) :
    (kvRemove k l).map Prod.fst = (l.map Prod.fst).filter fun x => decide (x ≠ k) :=
  map_fst_filter_ne l k

theorem kvLookup_insert_self (k : ℕ) (v : α) (l : List (ℕ × α)) :
    kvLookup k (kvInsert k v l) = some v := by
  rw [kvInsert, kvLookup, List.find?_cons_of_pos _ (by simp)]
  rfl

theorem tablesAligned_applyOp (db : Database) (op : StoreOp) (h : tablesAligned db) :
    tablesAligned (applyOp db op) := by
  obtain ⟨h1, h2⟩ := h
  cases op with
  | ins m =>
    constructor
    · show (kvInsert m.id _ db.metadata).map Prod.fst = (kvInsert m.id _ db.vectors).map Prod.fst
      rw [map_fst_kvInsert, map_fst_kvInsert, h1]
    · show (kvInsert m.id _ db.metadata).map Prod.fst = (kvInsert m.id _ db.bit_index).map Prod.fst
      rw [map_fst_kvInsert, map_fst_kvInsert, h2]
  | del id =>
    constructor
    · show (kvRemove id db.metadata).map Prod.fst = (kvRemove id db.vectors).map Prod.fst
      rw [map_fst_kvRemove, map_fst_kvRemove, h1]
    · show (kvRemove id db.metadata).map Prod.fst = (kvRemove id db.bit_index).map Prod.fst
      rw [map_fst_kvRemove, map_fst_kvRemove, h2]

theorem tablesAligned_applyOps (db : Database) (ops : List StoreOp) (h : tablesAligned db) :
    tablesAligned (applyOps db ops) := by
  induction ops generalizing db with
  | nil => exact h
  | cons op rest ih => exact ih (applyOp db op) (tablesAligned_applyOp db op h)

/-! ### Claim theorems: storage -/

/-- C1 as stated is false for `SqliteDatabase::insert_document`: on an
empty store, inserting a document whose embedding does not match the
`float[768]` column makes the first statement succeed and the second
fail, so the failed insert leaves the documents row present with no
vector row — a partial state, not the pre-insert state. -/
theorem sqlite_insert_partial_state :
    sqliteInsertDocument sqliteEmpty "a" ⟨"t", "c", "m", 0⟩ [1]
      = (⟨[("a", ⟨"t", "c", "m", 0⟩)], []⟩, false) ∧
    (⟨[("a", ⟨"t", "c", "m", 0⟩)], []⟩ : SqliteDb) ≠ sqliteEmpty := by
  constructor
  · rfl
  · intro h
    have := congrArg SqliteDb.documents h
    simp [sqliteEmpty] at this

/-- C1 (amended): the fjall `Database::insert_memory` writes the
metadata, vector and bit rows in one atomic batch, so every store
reachable from the empty store via `insert_memory`/`delete_memory` has
identical id sets in the three keyspaces — no partial rows ever exist
there, and a failed (never-committed) batch leaves the store unchanged.
`SqliteDatabase::insert_document`, by contrast, issues its two INSERT
statements without a transaction: when the documents INSERT succeeds and
the vector INSERT fails, the function returns an error but the documents
row remains. -/
theorem insert_atomicity_amended :
    (∀ ops : List StoreOp, tablesAligned (applyOps emptyDb ops)) ∧
    (∀ (db : SqliteDb) (id : String) (doc : DocRow) (vec : List ℝ),
      strLookup id db.documents = none → vec.length ≠ 768 →
      sqliteInsertDocument db id doc vec
        = ({ db with documents := db.documents ++ [(id, doc)] }, false)) := by
  constructor
  · intro ops
    exact tablesAligned_applyOps emptyDb ops ⟨rfl, rfl⟩
  · intro db id doc vec h1 h2
    unfold sqliteInsertDocument
    rw [h1]
    simp only [Option.isSome_none, Bool.false_eq_true, if_false]
    rw [if_pos (Or.inr h2)]

/-- Witness for C1 amended: a concrete op sequence and a concrete failing
SQLite insert. -/
theorem insert_atomicity_amended_witness :
    tablesAligned (applyOps emptyDb [.ins ⟨3, "x", [1], [255], .semantic, none⟩, .del 3]) ∧
    sqliteInsertDocument sqliteEmpty "a" ⟨"t", "c", "m", 7⟩ [1, 2]
      = ({ sqliteEmpty with documents := [("a", ⟨"t", "c", "m", 7⟩)] }, false) :=
  ⟨insert_atomicity_amended.1 _,
   insert_atomicity_amended.2 sqliteEmpty "a" ⟨"t", "c", "m", 7⟩ [1, 2] rfl (by norm_num)⟩

/-- C6 as stated is false for the fjall `Database::insert_memory`: it
performs no duplicate-id check, so inserting an existing id does not
fail — it silently replaces the stored rows (here the metadata changes
from `"a"` to `"b"`), so the original document's rows are not unchanged. -/
theorem insert_memory_duplicate_overwrites :
    kvLookup 0 (insertMemory (insertMemory emptyDb ⟨0, "a", [], [], .semantic, none⟩)
        ⟨0, "b", [], [], .semantic, none⟩).metadata
      = some ⟨"b", .semantic, none⟩ ∧
    kvLookup 0 (insertMemory (insertMemory emptyDb ⟨0, "a", [], [], .semantic, none⟩)
        ⟨0, "b", [], [], .semantic, none⟩).metadata
      ≠ some ⟨"a", .semantic, none⟩ := by
  constructor
  · rfl
  · intro h
    have := Option.some.inj h
    have := congrArg MemoryEntry.metadata this
    simp at this

/-- C6 (amended): in the SQLite backend, inserting a duplicate id fails
at the documents PRIMARY KEY before any write, leaving the store exactly
unchanged; in the fjall backend `insert_memory` does not check for
existence — re-inserting an id succeeds and atomically replaces all
three rows of that id. -/
theorem insert_duplicate_amended :
    (∀ (db : SqliteDb) (id : String) (doc : DocRow) (vec : List ℝ),
      (strLookup id db.documents).isSome →
      sqliteInsertDocument db id doc vec = (db, false)) ∧
    (∀ (db : Database) (m : Memory),
      kvLookup m.id (insertMemory db m).metadata = some ⟨m.metadata, m.tier, m.expires_at⟩ ∧
      kvLookup m.id (insertMemory db m).vectors = some m.vector ∧
      kvLookup m.id (insertMemory db m).bit_index = some m.bit_vector) := by
  constructor
  · intro db id doc vec h
    unfold sqliteInsertDocument
    rw [if_pos h]
  · intro db m
    exact ⟨kvLookup_insert_self _ _ _, kvLookup_insert_self _ _ _, kvLookup_insert_self _ _ _⟩

/-- Witness for C6 amended: duplicate insert on a concrete one-row SQLite
store, and a concrete fjall overwrite. -/
theorem insert_duplicate_amended_witness :
    sqliteInsertDocument ⟨[("a", ⟨"t", "c", "m", 0⟩)], [("a", [1])]⟩ "a" ⟨"u", "v", "w", 1⟩ []
      = (⟨[("a", ⟨"t", "c", "m", 0⟩)], [("a", [1])]⟩, false) ∧
    kvLookup 7 (insertMemory emptyDb ⟨7, "meta", [2], [9], .episodic, some 3⟩).vectors
      = some [2] :=
  ⟨insert_duplicate_amended.1 ⟨[("a", ⟨"t", "c", "m", 0⟩)], [("a", [1])]⟩ "a" ⟨"u", "v", "w", 1⟩ []
      (by rfl),
   (insert_duplicate_amended.2 emptyDb ⟨7, "meta", [2], [9], .episodic, some 3⟩).2.1⟩

/-! ### Funnel stage lemmas -/

theorem slice_vector_ok_le (q : List ℝ) (n : ℕ) (sq : List ℝ)
    (h : slice_vector q n = .ok sq) : n ≤ q.length ∧ n ≠ 0 := by
  unfold slice_vector at h
  by_cases h0 : n = 0
  · rw [if_pos h0] at h
    exact Except.noConfusion h
  · rw [if_neg h0] at h
    by_cases h1 : n > q.length
    · rw [if_pos h1] at h
      exact Except.noConfusion h
    · exact ⟨by omega, h0⟩

theorem stage2Scores_mem (now : ℕ) (db : Database) (sq : List ℝ) (cands : List ℕ) :
    ∀ l : List (ℕ × ℝ), stage2Scores now db sq cands = .ok l →
    ∀ p ∈ l, p.1 ∈ cands ∧ getMemory now db p.1 ≠ none := by
  induction cands with
  | nil =>
    intro l h p hp
    simp only [stage2Scores] at h
    injection h with h
    subst h
    simp at hp
  | cons id rest ih =>
    intro l h p hp
    simp only [stage2Scores] at h
    split at h
    · have := ih l h p hp
      exact ⟨List.mem_cons_of_mem id this.1, this.2⟩
    · rename_i memory hmem
      split at h
      · exact Except.noConfusion h
      · split at h
        · exact Except.noConfusion h
        · split at h
          · exact Except.noConfusion h
          · rename_i tail ht
            injection h with h
            subst h
            rcases List.mem_cons.mp hp with hp1 | hp2
            · subst hp1
              refine ⟨List.mem_cons_self _ _, ?_⟩
              show getMemory now db id ≠ none
              rw [hmem]
              exact fun hcon => Option.noConfusion hcon
            · have := ih tail ht p hp2
              exact ⟨List.mem_cons_of_mem id this.1, this.2⟩

theorem stage3Scores_mem (now : ℕ) (db : Database) (q : List ℝ) (cands : List ℕ) :
    ∀ l : List (ℕ × ℝ × String), stage3Scores now db q cands = .ok l →
    ∀ p ∈ l, p.1 ∈ cands ∧ getMemory now db p.1 ≠ none := by
  induction cands with
  | nil =>
    intro l h p hp
    simp only [stage3Scores] at h
    injection h with h
    subst h
    simp at hp
  | cons id rest ih =>
    intro l h p hp
    simp only [stage3Scores] at h
    split at h
    · have := ih l h p hp
      exact ⟨List.mem_cons_of_mem id this.1, this.2⟩
    · rename_i memory hmem
      split at h
      · exact Except.noConfusion h
      · split at h
        · exact Except.noConfusion h
        · rename_i tail ht
          injection h with h
          subst h
          rcases List.mem_cons.mp hp with hp1 | hp2
          · subst hp1
            refine ⟨List.mem_cons_self _ _, ?_⟩
            show getMemory now db id ≠ none
            rw [hmem]
            exact fun hcon => Option.noConfusion hcon
          · have := ih tail ht p hp2
            exact ⟨List.mem_cons_of_mem id this.1, this.2⟩

theorem full_rerank_ok (now : ℕ) (db : Database) (q : List ℝ) (cands : List ℕ) (k : ℕ)
    (r : List (ℕ × ℝ × String)) (h : full_rerank now db q cands k = .ok r) :
    r.length ≤ k ∧ r.Pairwise simGE3 ∧
    ∀ p ∈ r, p.1 ∈ cands ∧ getMemory now db p.1 ≠ none := by
  unfold full_rerank at h
  split at h
  · exact Except.noConfusion h
  · rename_i results ht
    injection h with h
    subst h
    refine ⟨?_, sortTake_pairwise simGE3 results k, ?_⟩
    · rw [sortTake_length]
      omega
    · intro p hp
      exact stage3Scores_mem now db q cands results ht p (sortTake_mem simGE3 results k p hp)

theorem hamming_scan_emptyDb (query_bits : List ℕ) (k : ℕ) :
    hamming_scan emptyDb query_bits k = [] := by
  rw [hamming_scan]
  simp [emptyDb]

/-! ### Claim theorems: stages 2-3 and the orchestrator -/

/-- C4 as stated is false: stage 2 slices the query with the hardcoded
target dimension 256, not `⌊D/3⌋` of the query's dimension `D`.  For the
query `[1, 1, 1]` (`D = 3`, `⌊D/3⌋ = 1`) and an empty candidate set it
does not return the empty list — `slice_vector(q, 256)` fails, and the
whole stage returns that error. -/
theorem matryoshka_short_query_errors :
    matryoshka_refinement 0 emptyDb [1, 1, 1] [] 5
      = .error "Target dimension is larger than input vector dimension" ∧
    matryoshka_refinement 0 emptyDb [1, 1, 1] [] 5 ≠ .ok [] := by
  constructor
  · rfl
  · intro h
    exact Except.noConfusion ((rfl :
      matryoshka_refinement 0 emptyDb [1, 1, 1] [] 5
        = .error "Target dimension is larger than input vector dimension").symm.trans h)

/-- C4 (amended): stage 2 slices the query to the fixed target dimension
256 (equal to `⌊D/3⌋` only for the canonical `D = 768`), so any
successful call requires `|q| ≥ 256`; on success it returns at most `k₂`
pairs `(id, 1 − cosine distance)` sorted by descending similarity
(equivalently ascending cosine distance), restricted to candidate ids
present (and unexpired) in the store, and an empty candidate set yields
the empty list. -/
theorem matryoshka_refinement_amended (now : ℕ) (db : Database) (q : List ℝ)
    (cands : List ℕ) (k : ℕ) (res : List (ℕ × ℝ))
    (h : matryoshka_refinement now db q cands k = .ok res) :
    256 ≤ q.length ∧ res.length ≤ k ∧ res.Pairwise simGE ∧
    (∀ p ∈ res, p.1 ∈ cands) ∧ (cands = [] → res = []) := by
  unfold matryoshka_refinement at h
  split at h
  · exact Except.noConfusion h
  · rename_i sq hs
    split at h
    · exact Except.noConfusion h
    · rename_i scores ht
      injection h with h
      subst h
      refine ⟨(slice_vector_ok_le q 256 sq hs).1, ?_,
        sortTake_pairwise simGE scores k, ?_, ?_⟩
      · rw [sortTake_length]
        omega
      · intro p hp
        exact (stage2Scores_mem now db sq cands scores ht p (sortTake_mem simGE scores k p hp)).1
      · intro hc
        subst hc
        simp only [stage2Scores] at ht
        injection ht with ht
        subst ht
        simp

/-- Witness for C4 amended on a concrete successful stage-2 call. -/
theorem matryoshka_refinement_amended_witness :
    256 ≤ (List.replicate 256 (0 : ℝ)).length ∧
    ([] : List (ℕ × ℝ)).length ≤ 5 :=
  have hslice : slice_vector (List.replicate 256 (0 : ℝ)) 256 = .ok (List.replicate 256 0) := by
    unfold slice_vector
    rw [if_neg (by norm_num),
      if_neg (show ¬ (256 : ℕ) > (List.replicate 256 (0 : ℝ)).length by
        rw [List.length_replicate]
        omega),
      List.take_replicate]
    have hz : sumSq (List.replicate (min 256 256) (0 : ℝ)) = 0 := by
      rw [sumSq, List.map_replicate, List.sum_replicate, mul_zero, smul_zero]
    rw [hz, Real.sqrt_zero, if_pos rfl]
    norm_num
  have hok : matryoshka_refinement 0 emptyDb (List.replicate 256 (0 : ℝ)) [] 5 = .ok [] := by
    unfold matryoshka_refinement
    rw [hslice]
    rfl
  have h := matryoshka_refinement_amended 0 emptyDb (List.replicate 256 (0 : ℝ)) [] 5 [] hok
  ⟨h.1, h.2.1⟩

/-- C5: any successful `search` returns at most `top_k` results, with
non-increasing scores. -/
theorem search_topk_sorted (now : ℕ) (db : Database) (cfg : Config) (q : List ℝ)
    (top_k : ℕ) (res : List FunnelResult) (h : search now db cfg q top_k = .ok res) :
    res.length ≤ top_k ∧ res.Pairwise fun a b => b.score ≤ a.score := by
  unfold search at h
  split at h
  · injection h with h
    subst h
    simp
  · split at h
    · exact Except.noConfusion h
    · rename_i s2 h2
      split at h
      · injection h with h
        subst h
        simp
      · split at h
        · exact Except.noConfusion h
        · rename_i s3 h4
          injection h with h
          subst h
          have hfr := full_rerank_ok now db q (s2.map Prod.fst) top_k s3 h4
          constructor
          · rw [List.length_map]
            exact hfr.1
          · exact List.Pairwise.map _ (fun a b hab => hab) hfr.2.1

/-- Witness for C5: a concrete successful search (empty store). -/
theorem search_topk_sorted_witness :
    ([] : List FunnelResult).length ≤ 7 ∧
    ([] : List FunnelResult).Pairwise fun a b => b.score ≤ a.score :=
  search_topk_sorted 0 emptyDb (Config.mk 100 20) [] 7 [] (by
    unfold search
    rw [hamming_scan_emptyDb]
    rfl)

/-- C9: on an empty database `search` returns `[]` without error for
every query and every `top_k`; and whenever stage 1 returns no
candidates, or stage 2 returns the empty list, the orchestrator
short-circuits and returns `[]`. -/
theorem search_empty_shortcircuit :
    (∀ (now : ℕ) (cfg : Config) (q : List ℝ) (top_k : ℕ),
      search now emptyDb cfg q top_k = .ok []) ∧
    (∀ (now : ℕ) (db : Database) (cfg : Config) (q : List ℝ) (top_k : ℕ),
      hamming_scan db (encode_bq q) cfg.stage1_k = [] →
      search now db cfg q top_k = .ok []) ∧
    (∀ (now : ℕ) (db : Database) (cfg : Config) (q : List ℝ) (top_k : ℕ),
      matryoshka_refinement now db q
        ((hamming_scan db (encode_bq q) cfg.stage1_k).map Prod.fst) cfg.stage2_k = .ok [] →
      search now db cfg q top_k = .ok []) := by
  have hstage1 : ∀ (now : ℕ) (db : Database) (cfg : Config) (q : List ℝ) (top_k : ℕ),
      hamming_scan db (encode_bq q) cfg.stage1_k = [] →
      search now db cfg q top_k = .ok [] := by
    intro now db cfg q top_k h
    unfold search
    rw [h]
    rfl
  refine ⟨?_, hstage1, ?_⟩
  · intro now cfg q top_k
    exact hstage1 now emptyDb cfg q top_k (hamming_scan_emptyDb _ _)
  · intro now db cfg q top_k h
    unfold search
    by_cases h1 : (hamming_scan db (encode_bq q) cfg.stage1_k).isEmpty
    · rw [if_pos h1]
    · rw [if_neg h1, h]
      rfl

/-- Witness for C9 at a concrete store and query. -/
theorem search_empty_shortcircuit_witness :
    search 3 emptyDb ⟨100, 20⟩ [1] 10 = .ok [] :=
  search_empty_shortcircuit.2.1 3 emptyDb (Config.mk 100 20) [1] 10 (hamming_scan_emptyDb _ _)

/-- C10: a stored memory whose `expires_at` has passed
(`expires_at ≤ now`) is invisible: `get_memory` returns `None` for it
even though its rows remain, and every id in a successful `search`
result still has a visible (`get_memory ≠ None`, hence unexpired)
memory — no search result carries an expired document. -/
theorem expired_invisible :
    (∀ (now : ℕ) (db : Database) (id : ℕ) (e : MemoryEntry) (t : ℕ),
      kvLookup id db.metadata = some e → e.expires_at = some t → t ≤ now →
      getMemory now db id = none) ∧
    (∀ (now : ℕ) (db : Database) (cfg : Config) (q : List ℝ) (top_k : ℕ)
      (res : List FunnelResult), search now db cfg q top_k = .ok res →
      ∀ r ∈ res, getMemory now db r.id ≠ none) := by
  constructor
  · intro now db id e t h1 h2 h3
    unfold getMemory
    rw [h1]
    cases kvLookup id db.vectors with
    | none => rfl
    | some v =>
      cases kvLookup id db.bit_index with
      | none => rfl
      | some b =>
        show (if is_expired now e.expires_at then none
          else some (Memory.mk id e.metadata v b e.tier e.expires_at)) = none
        rw [h2]
        simp [is_expired, h3]
  · intro now db cfg q top_k res h r hr
    unfold search at h
    split at h
    · injection h with h
      subst h
      simp at hr
    · split at h
      · exact Except.noConfusion h
      · rename_i s2 h2
        split at h
        · injection h with h
          subst h
          simp at hr
        · split at h
          · exact Except.noConfusion h
          · rename_i s3 h4
            injection h with h
            subst h
            rcases List.mem_map.mp hr with ⟨t3, ht3, hrt⟩
            have hfr := full_rerank_ok now db q (s2.map Prod.fst) top_k s3 h4
            have := (hfr.2.2 t3 ht3).2
            rw [← hrt]
            exact this

/-- Witness for C10: a concrete expired memory is invisible. -/
theorem expired_invisible_witness :
    getMemory 10 (insertMemory emptyDb ⟨0, "x", [], [], .semantic, some 5⟩) 0 = none :=
  expired_invisible.1 10 (insertMemory emptyDb ⟨0, "x", [], [], .semantic, some 5⟩) 0
    ⟨"x", .semantic, some 5⟩ 5 (kvLookup_insert_self _ _ _) rfl (by norm_num)

end LocalMemory
